import Mathlib

/-!
Shallow embedding of the paginated-collection loader of `t3api_utils`
(`t3api_utils/collection/utils.py`: `parallel_load_collection` and
`extract_data`), together with a cooperative-concurrency variant modelled
from the design document (the module `t3api_utils/api/parallel.py` that
implements `parallel_load_paginated_async` is not part of the available
sources; only its tests and import sites are present).

Modelling conventions:
* A page response is an opaque value of a type `α`; the duck-typed
  attribute accesses of the Python code (`hasattr`/`getattr`/`len`) are
  represented by an `Attrs` record of partial accessors, where `none`
  conflates "attribute absent" with "attribute is `None`", exactly as the
  source treats the two.
* The page-fetch callable is `method : Option Nat → Except Unit (Option α)`:
  the argument is the `page=` keyword (`none` = called without a page
  argument, as the seed call on line 35 does), `Except.error` models a
  raised exception, and a returned `none` models a Python `None` result.
* Thread-pool concurrency is made explicit by an `order : List Nat`
  parameter: the order in which `as_completed` yields the futures of the
  concurrent pages (0-based slot indices `1 .. num_pages-1`).  In a real
  run `order` is a permutation of `List.range' 1 (num_pages - 1)`.
-/

set_option autoImplicit false

universe u

variable {α : Type}

/-- The duck-typed attribute surface of a page response: `total` models
`first_response.total` (with `none` for "missing or `None`"), `page_size`
models `getattr(first_response, "page_size", None)`, and `len` models
`len(first_response)` when `__len__` exists (`none` when it does not). -/
structure Attrs (α : Type) where
  total : α → Option Nat
  page_size : α → Option Nat
  len : α → Option Nat

/-- The observable failure modes of `parallel_load_collection`:
the two `ValueError`s of lines 38 and 47, the `IndexError` produced by
`responses[0] = first_response` when `num_pages = 0` (line 53), and a
propagated exception of the fetch callable (lines 35 and 63). -/
inductive LoadError where
  | valueErrorTotal
  | valueErrorPageSize
  | indexError
  | fetchRaised
deriving DecidableEq, Repr

/-- Both `ValueError`s of the seed validation, as one predicate. -/
def LoadError.isValueError : LoadError → Bool
  | .valueErrorTotal => true
  | .valueErrorPageSize => true
  | _ => false

/-- Lines 43–45: `page_size = getattr(first_response, "page_size", None)`,
falling back to `len(first_response)` when that gave `None`. -/
def resolve_page_size (firstOpt : Option α) (pA lA : α → Option Nat) : Option Nat :=
  match firstOpt.bind pA with
  | some ps => some ps
  | none => firstOpt.bind lA

/-- Lines 37–47: validate the seed response, extracting `(total, page_size)`
or raising the corresponding `ValueError`.  (`firstOpt.bind A.total = none`
is exactly `not hasattr(first_response, "total") or first_response.total is
None`, including the case of a `None` seed response.) -/
def validate_seed (A : Attrs α) (firstOpt : Option α) : Except LoadError (Nat × Nat) :=
  match firstOpt.bind A.total with
  | none => .error .valueErrorTotal
  | some total =>
    match resolve_page_size firstOpt A.page_size A.len with
    | none => .error .valueErrorPageSize
    | some ps =>
      if ps = 0 then .error .valueErrorPageSize else .ok (total, ps)

/-- Line 49: `num_pages = (total + page_size - 1) // page_size`. -/
def num_pages_of (total ps : Nat) : Nat := (total + ps - 1) / ps

/-- Lines 60–65: process the futures in the order `as_completed` yields
them.  Each future holds the outcome of `fetch_page i`, i.e. of
`method(page=i+1)`; `future.result()` re-raises a captured exception,
otherwise line 64 writes the response into slot `i` of the array. -/
def loadLoop (method : Option Nat → Except Unit (Option α)) :
    List Nat → List (Option α) → Except LoadError (List (Option α))
  | [], resp => .ok resp
  | i :: rest, resp =>
    match method (some (i + 1)) with
    | .error _ => .error .fetchRaised
    | .ok r => loadLoop method rest (resp.set i r)

/-- Lines 25–68, `parallel_load_collection`: seed fetch, seed validation,
page-count computation, array allocation (`[None] * num_pages` with
`responses[0] = first_response`, an `IndexError` when `num_pages = 0`),
the concurrent fan-out/fan-in, and the final
`[r for r in responses if r is not None]`. -/
def parallel_load_collection (A : Attrs α)
    (method : Option Nat → Except Unit (Option α)) (order : List Nat) :
    Except LoadError (List α) :=
  match method none with
  | .error _ => .error .fetchRaised
  | .ok firstOpt =>
    match validate_seed A firstOpt with
    | .error e => .error e
    | .ok (total, ps) =>
      let N := num_pages_of total ps
      if N = 0 then .error .indexError
      else
        match loadLoop method order ((List.replicate N (none : Option α)).set 0 firstOpt) with
        | .error e => .error e
        | .ok responses => .ok (responses.filterMap id)

/-- The page count the loader derives (lines 35–49): defined, and equal to
`num_pages_of total page_size`, exactly when the seed call succeeds and
validates.  It is a function of the seed call alone. -/
def computed_num_pages (A : Attrs α)
    (method : Option Nat → Except Unit (Option α)) : Option Nat :=
  match method none with
  | .error _ => none
  | .ok firstOpt =>
    match validate_seed A firstOpt with
    | .error _ => none
    | .ok (total, ps) => some (num_pages_of total ps)

/-- The arguments `method` is invoked with, in invocation order: the seed
call of line 35 carries no `page` argument; when validation passes and
`num_pages ≥ 1`, line 61 submits one future per `i in range(1, num_pages)`
and each `fetch_page i` calls `method(page=i+1)` exactly once (line 57).
The executor's `with` block waits for every submitted future even when one
of them raised, so the concurrent calls all happen; when validation fails
or `num_pages = 0` the error is raised before the executor is entered. -/
def call_trace (A : Attrs α)
    (method : Option Nat → Except Unit (Option α)) (order : List Nat) :
    List (Option Nat) :=
  match method none with
  | .error _ => [none]
  | .ok firstOpt =>
    match validate_seed A firstOpt with
    | .error _ => [none]
    | .ok (total, ps) =>
      if num_pages_of total ps = 0 then [none]
      else none :: order.map (fun i => some (i + 1))

/-- The `HasData` protocol of `t3api_utils/interfaces.py`: an object
exposing a `data` list. -/
structure HasData (α : Type) where
  data : List α

/-- Lines 193–209: `extract_data`, the nested list comprehension
`[item for response in responses for item in response.data]`. -/
def extract_data (responses : List (HasData α)) : List α :=
  responses.flatMap HasData.data

/-- A page-fetch callable that is a pure function of the page number and
defaults to the first page when called with no `page` argument — the
interface contract of the design document (§6: `fetch_page(page: int, ...)`,
seed call "with `page=1` or no page argument, defaulting to the first
page").  A returned `none` models a Python `None` result. -/
def mkMethod (f : Nat → Option α) : Option Nat → Except Unit (Option α) :=
  fun p => .ok (f (p.getD 1))

/-- The reference computation the design document compares against:
fetching pages `1 .. n` strictly serially, each with its explicit page
number. -/
def serial_load_pages (method : Option Nat → Except Unit (Option α)) (n : Nat) :
    Except Unit (List (Option α)) :=
  (List.range' 1 n).mapM (fun k => method (some k))

/-- Modelled from the spec (§4.4 Batch Coordinator): partition a list of
page slots into consecutive chunks of size `b` (`b = 0` degenerates to a
single chunk; the spec only uses positive batch sizes). -/
def toBatches (b : Nat) (l : List Nat) : List (List Nat) :=
  if h : l = [] then []
  else if hb : b = 0 then [l]
  else l.take b :: toBatches b (l.drop b)
termination_by l.length
decreasing_by
  simp only [List.length_drop]
  have hpos : 0 < l.length := List.length_pos.mpr h
  omega

/-- Modelled from the spec (§4.2 cooperative variant, §4.4): dispatch each
batch's page fetches, await them all (writes are index-addressed), then
start the next batch; any raised fetch error propagates. -/
def batchLoop (method : Option Nat → Except Unit (Option α)) :
    List (List Nat) → List (Option α) → Except LoadError (List (Option α))
  | [], resp => .ok resp
  | b :: bs, resp =>
    match loadLoop method b resp with
    | .error e => .error e
    | .ok r => batchLoop method bs r

/-- Modelled from the spec: `parallel_load_paginated_async` lives in
`t3api_utils/api/parallel.py`, which is absent from the available sources.
Following §4.2 (cooperative/suspending variant) and §4.4: the seed is
fetched with `page=1` (per the tests, `method.assert_called_once_with(page=1)`),
the seed is validated for total/page-size exactly as the blocking variant,
`num_pages ≤ 1` short-circuits to "a single-element result list containing
only the seed page", and otherwise pages `2 .. num_pages` are dispatched —
in one wave, or in consecutive batches of `batch_size` — into an
index-addressed array whose populated slots are returned in page order. -/
def parallel_load_paginated_async (A : Attrs α)
    (method : Option Nat → Except Unit (Option α)) (batch_size : Option Nat) :
    Except LoadError (List α) :=
  match method (some 1) with
  | .error _ => .error .fetchRaised
  | .ok firstOpt =>
    match validate_seed A firstOpt with
    | .error e => .error e
    | .ok (total, ps) =>
      let N := num_pages_of total ps
      if N ≤ 1 then .ok firstOpt.toList
      else
        let pages := List.range' 1 (N - 1)
        let batches := match batch_size with
          | none => [pages]
          | some b => toBatches b pages
        match batchLoop method batches ((List.replicate N (none : Option α)).set 0 firstOpt) with
        | .error e => .error e
        | .ok responses => .ok (responses.filterMap id)

/-- A concrete response shape for evaluating the model: optional `total`
and `page_size` attributes, an optional length, and a tag identifying the
page it came from. -/
structure TestResp where
  total : Option Nat
  page_size : Option Nat
  len : Option Nat
  tag : Nat
deriving DecidableEq, Repr

/-- The attribute accessors of `TestResp`. -/
def testAttrs : Attrs TestResp :=
  { total := TestResp.total, page_size := TestResp.page_size, len := TestResp.len }

/-- The page-`k` response of a 25-record, 10-per-page collection. -/
def wResp (k : Nat) : TestResp :=
  { total := some 25, page_size := some 10, len := some 10, tag := k }

/-- A callable whose every page succeeds (25 records, 10 per page). -/
def wMethod : Option Nat → Except Unit (Option TestResp) :=
  mkMethod (fun k => some (wResp k))

/-- A callable raising for `page=3` and succeeding elsewhere. -/
def wMethodFail : Option Nat → Except Unit (Option TestResp) :=
  fun p => if p = some 3 then .error () else .ok (some (wResp (p.getD 1)))

/-- A seed response reporting an empty collection (`total = 0`). -/
def zResp : TestResp :=
  { total := some 0, page_size := some 10, len := some 0, tag := 0 }

/-- A callable returning the `total = 0` seed for every call. -/
def zMethod : Option Nat → Except Unit (Option TestResp) :=
  fun _ => .ok (some zResp)

/-- A seed response lacking a usable `total`. -/
def badResp : TestResp :=
  { total := none, page_size := some 10, len := some 10, tag := 0 }

/-- A callable whose seed response lacks a usable `total`. -/
def badTotalMethod : Option Nat → Except Unit (Option TestResp) :=
  fun _ => .ok (some badResp)

/-- An extra single-page collection seed (`total = 5 ≤ page_size = 10`). -/
def sResp : TestResp :=
  { total := some 5, page_size := some 10, len := some 5, tag := 1 }

/-- A callable returning the single-page seed for every call. -/
def sMethod : Option Nat → Except Unit (Option TestResp) :=
  fun _ => .ok (some sResp)

/-- The value a completed future writes into its slot. -/
def fetchVal (method : Option Nat → Except Unit (Option α)) (i : Nat) : Option α :=
  match method (some (i + 1)) with
  | .ok v => v
  | .error _ => none


/-! ### Helper lemmas about the assembly loop -/

/-- Index-addressed writes keep the array length. -/
lemma foldl_set_length (g : Nat → Option α) (l : List Nat) (resp : List (Option α)) :
    (l.foldl (fun acc i => acc.set i (g i)) resp).length = resp.length := by
  induction l generalizing resp with
  | nil => rfl
  | cons a l ih => simp [ih, List.length_set]

/-- A sequence of index-addressed writes with index-determined values is
pointwise determined by membership of the index set, independently of the
write order. -/
lemma foldl_set_getElem? (g : Nat → Option α) (l : List Nat) (resp : List (Option α))
    (j : Nat) (hl : ∀ i ∈ l, i < resp.length) :
    (l.foldl (fun acc i => acc.set i (g i)) resp)[j]? =
      if j ∈ l then some (g j) else resp[j]? := by
  induction l generalizing resp with
  | nil => simp
  | cons a l ih =>
    have ha : a < resp.length := hl a (List.mem_cons_self a l)
    have hl' : ∀ i ∈ l, i < (resp.set a (g a)).length := by
      intro i hi
      simpa [List.length_set] using hl i (List.mem_cons_of_mem a hi)
    rw [List.foldl_cons, ih (resp.set a (g a)) hl']
    by_cases hjl : j ∈ l
    · simp [hjl]
    · by_cases hja : j = a
      · subst hja
        simp [hjl, List.getElem?_set, ha]
      · simp [hjl, hja, List.getElem?_set, Ne.symm hja]

/-- With a pure fetch function the fan-in loop never fails and performs
exactly the index-addressed writes. -/
lemma loadLoop_mkMethod (f : Nat → Option α) (l : List Nat) :
    ∀ resp : List (Option α),
      loadLoop (mkMethod f) l resp =
        .ok (l.foldl (fun acc i => acc.set i (f (i + 1))) resp) := by
  induction l with
  | nil => intro resp; rfl
  | cons a l ih => intro resp; simp [loadLoop, mkMethod, ih]

/-- If any processed future holds a raised exception, the fan-in loop
raises. -/
lemma loadLoop_err (method : Option Nat → Except Unit (Option α)) (l : List Nat) :
    ∀ resp : List (Option α),
      (∃ i ∈ l, ∃ e, method (some (i + 1)) = .error e) →
      loadLoop method l resp = .error .fetchRaised := by
  induction l with
  | nil => intro resp h; simp at h
  | cons a l ih =>
    intro resp h
    rcases h with ⟨i, hi, e, he⟩
    rcases List.mem_cons.mp hi with rfl | hmem
    · simp [loadLoop, he]
    · cases hm : method (some (a + 1)) with
      | error e₂ => simp [loadLoop, hm]
      | ok r =>
        simp only [loadLoop, hm]
        exact ih (resp.set a r) ⟨i, hmem, e, he⟩

/-- If no processed future raised, the fan-in loop succeeds with exactly
the index-addressed writes of the fetched values. -/
lemma loadLoop_ok (method : Option Nat → Except Unit (Option α)) (l : List Nat) :
    ∀ resp : List (Option α),
      (∀ i ∈ l, ∀ e, method (some (i + 1)) ≠ .error e) →
      loadLoop method l resp =
        .ok (l.foldl (fun acc i => acc.set i (fetchVal method i)) resp) := by
  induction l with
  | nil => intro resp _; rfl
  | cons a l ih =>
    intro resp h
    cases hm : method (some (a + 1)) with
    | error e => exact absurd hm (h a (List.mem_cons_self a l) e)
    | ok r =>
      have hv : fetchVal method a = r := by simp [fetchVal, hm]
      simp only [loadLoop, hm, List.foldl_cons, hv]
      exact ih (resp.set a r) (fun i hi e => h i (List.mem_cons_of_mem a hi) e)

/-- Processing a concatenation is processing the parts in sequence. -/
lemma loadLoop_append (method : Option Nat → Except Unit (Option α)) (l₁ l₂ : List Nat) :
    ∀ resp : List (Option α),
      loadLoop method (l₁ ++ l₂) resp =
        match loadLoop method l₁ resp with
        | .error e => .error e
        | .ok r => loadLoop method l₂ r := by
  induction l₁ with
  | nil => intro resp; rfl
  | cons a l ih =>
    intro resp
    cases hm : method (some (a + 1)) with
    | error e => simp [loadLoop, hm]
    | ok r => simp [loadLoop, hm, ih]

/-- Awaiting consecutive batches equals processing their concatenation. -/
lemma batchLoop_eq_loadLoop (method : Option Nat → Except Unit (Option α))
    (bs : List (List Nat)) :
    ∀ resp : List (Option α),
      batchLoop method bs resp = loadLoop method bs.flatten resp := by
  induction bs with
  | nil => intro resp; rfl
  | cons b bs ih =>
    intro resp
    rw [batchLoop, List.flatten_cons, loadLoop_append]
    cases loadLoop method b resp with
    | error e => rfl
    | ok r => exact ih r

/-- Batching partitions the page list without loss or reordering. -/
lemma toBatches_flatten (b : Nat) (l : List Nat) : (toBatches b l).flatten = l := by
  induction l using toBatches.induct b with
  | case1 => rw [toBatches]; simp
  | case2 x h hb => rw [toBatches, dif_neg h, dif_pos hb]; simp
  | case3 x h hb ih =>
    rw [toBatches, dif_neg h, dif_neg hb, List.flatten_cons, ih]
    exact List.take_append_drop b x

/-- The fan-in result is invariant under the completion order of the
futures: only the set of completed pages matters. -/
lemma loadLoop_perm (method : Option Nat → Except Unit (Option α))
    {order pages : List Nat} (resp : List (Option α))
    (hperm : order.Perm pages) (hlt : ∀ i ∈ pages, i < resp.length) :
    loadLoop method order resp = loadLoop method pages resp := by
  by_cases herr : ∃ i ∈ pages, ∃ e, method (some (i + 1)) = .error e
  · rcases herr with ⟨i, hi, e, he⟩
    rw [loadLoop_err method order resp ⟨i, hperm.mem_iff.mpr hi, e, he⟩,
        loadLoop_err method pages resp ⟨i, hi, e, he⟩]
  · push_neg at herr
    rw [loadLoop_ok method order resp
          (fun i hi e => herr i (hperm.mem_iff.mp hi) e),
        loadLoop_ok method pages resp herr]
    congr 1
    apply List.ext_getElem?
    intro j
    rw [foldl_set_getElem? _ _ _ _ (fun i hi => hlt i (hperm.mem_iff.mp hi)),
        foldl_set_getElem? _ _ _ _ hlt]
    simp [hperm.mem_iff]

/-- Element lookup in a mapped arithmetic range. -/
lemma getElem?_map_range' {β : Type} (f : Nat → β) (s N j : Nat) :
    ((List.range' s N).map f)[j]? = if j < N then some (f (s + j)) else none := by
  by_cases hj : j < N
  · have hj' : j < (List.range' s N).length := by simpa using hj
    rw [List.getElem?_map, List.getElem?_eq_getElem hj', List.getElem_range'_1]
    simp [hj]
  · rw [List.getElem?_eq_none (by simpa using Nat.le_of_not_lt hj)]
    simp [hj]

/-- Membership in `order` (a permutation of the concurrent slot indices)
is exactly `1 ≤ i < N`. -/
lemma mem_order_iff {order : List Nat} {N : Nat}
    (hperm : order.Perm (List.range' 1 (N - 1))) (hN : 1 ≤ N) (i : Nat) :
    i ∈ order ↔ 1 ≤ i ∧ i < N := by
  rw [hperm.mem_iff, List.mem_range']
  constructor
  · rintro ⟨k, hk, rfl⟩
    omega
  · intro h
    exact ⟨i - 1, by omega, by omega⟩

/-- The assembled page array of a pure fetch function equals the serial
page list, whatever the completion order. -/
lemma assembled_eq_map (f : Nat → Option α) (N : Nat) (hN : 1 ≤ N) (order : List Nat)
    (hperm : order.Perm (List.range' 1 (N - 1))) :
    order.foldl (fun acc i => acc.set i (f (i + 1)))
        ((List.replicate N (none : Option α)).set 0 (f 1)) =
      (List.range' 1 N).map f := by
  have hlen : ((List.replicate N (none : Option α)).set 0 (f 1)).length = N := by
    simp
  apply List.ext_getElem?
  intro j
  rw [foldl_set_getElem? _ _ _ _
        (fun i hi => by rw [hlen]; exact ((mem_order_iff hperm hN i).mp hi).2),
      getElem?_map_range']
  by_cases hj : j < N
  · rcases Nat.eq_zero_or_pos j with rfl | hjpos
    · have h0 : (0 : Nat) ∉ order := by
        rw [mem_order_iff hperm hN]
        omega
      simp [h0, List.getElem?_set, hN, hj]
    · have hjo : j ∈ order := (mem_order_iff hperm hN j).mpr ⟨hjpos, hj⟩
      simp [hjo, hj, Nat.add_comm 1 j]
  · have hjo : j ∉ order := by
      rw [mem_order_iff hperm hN]
      omega
    have : ((List.replicate N (none : Option α)).set 0 (f 1))[j]? = none :=
      List.getElem?_eq_none (by rw [hlen]; omega)
    simp [hjo, hj, this]

/-- `mapM` of an everywhere-successful computation is `map`. -/
lemma mapM_ok {β γ : Type} (g : β → γ) (l : List β) :
    l.mapM (fun x => (Except.ok (g x) : Except Unit γ)) = .ok (l.map g) := by
  induction l with
  | nil => rfl
  | cons a l ih => rw [List.mapM_cons, ih]; rfl

/-- Serial fetching with a pure fetch function yields the pages in page
order. -/
lemma serial_load_pages_mkMethod (f : Nat → Option α) (n : Nat) :
    serial_load_pages (mkMethod f) n = .ok ((List.range' 1 n).map f) := by
  unfold serial_load_pages mkMethod
  simpa using mapM_ok (fun k => f ((some k).getD 1)) (List.range' 1 n)

/-- Dropping the `none`s of an all-`some` list is the underlying map. -/
lemma filterMap_id_map_some {β : Type} (g : Nat → β) (l : List Nat) :
    ((l.map fun k => some (g k)).filterMap id) = l.map g := by
  rw [List.filterMap_map]
  exact congrFun (List.filterMap_eq_map g) l

/-- Filtering the `none`s out of a list that contains one strictly
shrinks it. -/
lemma length_filterMap_id_lt {l : List (Option α)} (h : none ∈ l) :
    (l.filterMap id).length < l.length := by
  induction l with
  | nil => simp at h
  | cons a l ih =>
    cases a with
    | none =>
      have hle := List.length_filterMap_le (id : Option α → Option α) l
      simp only [List.filterMap_cons, id, List.length_cons]
      omega
    | some x =>
      have hmem : (none : Option α) ∈ l := by
        rcases List.mem_cons.mp h with h0 | h0
        · exact absurd h0.symm (Option.some_ne_none x)
        · exact h0
      have := ih hmem
      simp only [List.filterMap_cons, id, List.length_cons]
      omega

/-- Central characterisation: with a pure fetch function, a valid seed and
any completion order, the loader returns exactly the serially-ordered page
list with `None` results dropped. -/
lemma parallel_load_collection_mkMethod (f : Nat → Option α) (A : Attrs α)
    (order : List Nat) (total ps : Nat)
    (hval : validate_seed A (f 1) = .ok (total, ps))
    (hN : 1 ≤ num_pages_of total ps)
    (hperm : order.Perm (List.range' 1 (num_pages_of total ps - 1))) :
    parallel_load_collection A (mkMethod f) order =
      .ok (((List.range' 1 (num_pages_of total ps)).map f).filterMap id) := by
  have hN0 : ¬num_pages_of total ps = 0 := by omega
  simp only [parallel_load_collection, mkMethod, Option.getD, hval, hN0, if_false]
  rw [loadLoop_mkMethod, assembled_eq_map f (num_pages_of total ps) hN order hperm]

/-- The Python expression `(total + page_size - 1) // page_size` is the
mathematical ceiling of `total / page_size` (for a positive page size). -/
lemma num_pages_of_eq_ceil (total ps : Nat) (hps : 1 ≤ ps) :
    num_pages_of total ps = ⌈(total : ℚ) / (ps : ℚ)⌉₊ := by
  rcases Nat.eq_zero_or_pos total with rfl | htot
  · have h0 : num_pages_of 0 ps = 0 := by
      unfold num_pages_of
      exact Nat.div_eq_of_lt (by omega)
    rw [h0]
    simp
  · set N := num_pages_of total ps with hNdef
    have key : ps * N + (total + ps - 1) % ps = total + ps - 1 :=
      Nat.div_add_mod (total + ps - 1) ps
    have hr : (total + ps - 1) % ps < ps := Nat.mod_lt _ (by omega)
    have hub : total ≤ N * ps := by
      rw [Nat.mul_comm]
      omega
    have hlb : (N - 1) * ps < total := by
      have hN1 : 1 ≤ N := by
        have : ps ≤ ps * N + (total + ps - 1) % ps := by omega
        by_contra hc
        push_neg at hc
        interval_cases N
        omega
      calc (N - 1) * ps = N * ps - ps := by
            rw [Nat.sub_mul, Nat.one_mul]
        _ < total := by rw [Nat.mul_comm]; omega
    have hN0 : N ≠ 0 := by
      intro hc
      rw [hc] at hub
      omega
    symm
    rw [Nat.ceil_eq_iff hN0]
    have hpsQ : (0 : ℚ) < (ps : ℚ) := by exact_mod_cast (by omega : 0 < ps)
    constructor
    · rw [lt_div_iff hpsQ]
      calc ((N - 1 : Nat) : ℚ) * (ps : ℚ) = (((N - 1) * ps : Nat) : ℚ) := by
            push_cast
            ring
        _ < (total : ℚ) := by exact_mod_cast hlb
    · rw [div_le_iff hpsQ]
      calc ((total : Nat) : ℚ) ≤ ((N * ps : Nat) : ℚ) := by exact_mod_cast hub
        _ = (N : ℚ) * (ps : ℚ) := by push_cast; ring

/-- The flattened length of equal-sized pages. -/
lemma extract_data_length (m : Nat) :
    ∀ rs : List (HasData α), (∀ r ∈ rs, r.data.length = m) →
      (extract_data rs).length = rs.length * m := by
  intro rs
  induction rs with
  | nil => intro _; simp [extract_data]
  | cons r rest ih =>
    intro hm
    have hr : r.data.length = m := hm r (List.mem_cons_self r rest)
    have hrest := ih (fun x hx => hm x (List.mem_cons_of_mem r hx))
    simp only [extract_data] at hrest ⊢
    rw [List.flatMap_cons, List.length_append, hr, hrest, List.length_cons]
    ring

/-- Positional form of the flattening of equal-sized pages. -/
lemma extract_data_getElem (m : Nat) :
    ∀ rs : List (HasData α), (∀ r ∈ rs, r.data.length = m) →
      ∀ i j (hi : i < rs.length), j < m →
        (extract_data rs)[i * m + j]? = (rs.get ⟨i, hi⟩).data[j]? := by
  intro rs
  induction rs with
  | nil => intro _ i j hi _; simp at hi
  | cons r rest ih =>
    intro hm i j hi hj
    have hr : r.data.length = m := hm r (List.mem_cons_self r rest)
    have hsplit : extract_data (r :: rest) = r.data ++ extract_data rest := by
      simp [extract_data, List.flatMap_cons]
    rw [hsplit]
    cases i with
    | zero =>
      rw [List.getElem?_append_left (by omega)]
      simp
    | succ i =>
      have hlen : r.data.length ≤ (i + 1) * m + j := by
        rw [hr]
        have : m ≤ (i + 1) * m := Nat.le_mul_of_pos_left m (by omega)
        omega
      rw [List.getElem?_append_right hlen]
      have hidx : (i + 1) * m + j - r.data.length = i * m + j := by
        rw [hr, Nat.succ_mul]
        omega
      rw [hidx]
      have hi' : i < rest.length := by simpa using Nat.lt_of_succ_lt_succ hi
      rw [ih (fun x hx => hm x (List.mem_cons_of_mem r hx)) i j hi' hj]
      rfl

/-- In a duplicate-free list, a member is counted exactly once (stated for
any lawful boolean equality). -/
lemma count_eq_one_of_nodup_mem {β : Type} [BEq β] [LawfulBEq β] {l : List β} {a : β}
    (hnd : l.Nodup) (ha : a ∈ l) : l.count a = 1 := by
  induction l with
  | nil => simp at ha
  | cons x l ih =>
    rw [List.count_cons]
    rcases List.mem_cons.mp ha with rfl | hmem
    · have hx : a ∉ l := (List.nodup_cons.mp hnd).1
      simp [List.count_eq_zero.mpr hx]
    · have hne : x ≠ a := by
        rintro rfl
        exact (List.nodup_cons.mp hnd).1 hmem
      have hc := ih (List.nodup_cons.mp hnd).2 hmem
      simp [hc, hne]

/-- Filtering the `None`s out of a one-slot array yields the optional
element's list. -/
lemma filterMap_id_singleton (x : Option α) : [x].filterMap id = x.toList := by
  cases x <;> rfl

/-! ### The claims -/

/-- C7: `extract_data` returns exactly the concatenation of the `.data`
sequences of its inputs in input-list order: for a list of `k` responses
each holding `m` items the output has length `k * m`, the item at output
position `i * m + j` is item `j` of response `i`, and `extract_data` of
the empty list is the empty list. -/
theorem c7_extract_data_flattening (m : Nat) (rs : List (HasData α))
    (hm : ∀ r ∈ rs, r.data.length = m) :
    extract_data rs = (rs.map HasData.data).flatten ∧
    (extract_data rs).length = rs.length * m ∧
    (∀ i j (hi : i < rs.length), j < m →
      (extract_data rs)[i * m + j]? = (rs.get ⟨i, hi⟩).data[j]?) ∧
    extract_data ([] : List (HasData α)) = [] :=
  ⟨by simp [extract_data, List.flatMap_def],
   extract_data_length m rs hm,
   fun i j hi hj => extract_data_getElem m rs hm i j hi hj,
   rfl⟩

/-- C7 witness: two pages of two items each flatten to the four items in
page-then-within-page order. -/
theorem c7_extract_data_flattening_witness :
    (extract_data [HasData.mk [10, 11], HasData.mk [20, 21]]).length = 2 * 2 ∧
    extract_data [HasData.mk [10, 11], HasData.mk [20, 21]] = [10, 11, 20, 21] :=
  ⟨(c7_extract_data_flattening 2 [HasData.mk [10, 11], HasData.mk [20, 21]]
      (by decide)).2.1,
   rfl⟩

/-- C3: the page count is `(total + page_size - 1) // page_size`, the
mathematical ceiling of `total / page_size` for every `total ≥ 0` and
`page_size ≥ 1`; and it is derived from the seed call alone — two
callables that agree on the seed call give the loader the same computed
page count, whatever later pages would return. -/
theorem c3_num_pages_ceil (total ps : Nat) (hps : 1 ≤ ps) (A : Attrs α)
    (m m' : Option Nat → Except Unit (Option α)) (hseed : m none = m' none) :
    num_pages_of total ps = (total + ps - 1) / ps ∧
    num_pages_of total ps = ⌈(total : ℚ) / (ps : ℚ)⌉₊ ∧
    computed_num_pages A m = computed_num_pages A m' := by
  refine ⟨rfl, num_pages_of_eq_ceil total ps hps, ?_⟩
  unfold computed_num_pages
  rw [hseed]

/-- C3 witness: `total = 25, page_size = 10` gives `⌈25/10⌉ = 3` pages. -/
theorem c3_num_pages_ceil_witness :
    num_pages_of 25 10 = (25 + 10 - 1) / 10 ∧
    num_pages_of 25 10 = ⌈(25 : ℚ) / (10 : ℚ)⌉₊ ∧
    computed_num_pages testAttrs wMethod = computed_num_pages testAttrs wMethod :=
  c3_num_pages_ceil 25 10 (by decide) testAttrs wMethod wMethod rfl

/-- C9: a seed reporting `total = 0` with a resolvable positive page size
makes the loader raise `IndexError` (`responses[0] = first_response` on a
zero-length array) rather than return any list. -/
theorem c9_total_zero_index_error (A : Attrs α)
    (method : Option Nat → Except Unit (Option α)) (order : List Nat)
    (firstOpt : Option α) (ps : Nat)
    (hseed : method none = .ok firstOpt)
    (htotal : firstOpt.bind A.total = some 0)
    (hps : resolve_page_size firstOpt A.page_size A.len = some ps)
    (hpos : 1 ≤ ps) :
    parallel_load_collection A method order = .error .indexError := by
  have hval : validate_seed A firstOpt = .ok (0, ps) := by
    unfold validate_seed
    rw [htotal, hps]
    simp [show ¬ps = 0 by omega]
  have hN : num_pages_of 0 ps = 0 := by
    unfold num_pages_of
    exact Nat.div_eq_of_lt (by omega)
  simp [parallel_load_collection, hseed, hval, hN]

/-- C9 witness: the concrete `total = 0, page_size = 10` seed. -/
theorem c9_total_zero_index_error_witness :
    parallel_load_collection testAttrs zMethod [] = .error .indexError :=
  c9_total_zero_index_error testAttrs zMethod [] (some zResp) 10 rfl rfl rfl
    (by decide)

/-- C6: a seed without a usable `total`, or with no derivable page size,
or with a zero page size, makes the loader raise a `ValueError`
immediately: the callable is invoked exactly once (the seed call) and no
concurrent fetch is dispatched. -/
theorem c6_config_value_error (A : Attrs α)
    (method : Option Nat → Except Unit (Option α)) (order : List Nat)
    (firstOpt : Option α)
    (hseed : method none = .ok firstOpt)
    (h : firstOpt.bind A.total = none ∨
         resolve_page_size firstOpt A.page_size A.len = none ∨
         resolve_page_size firstOpt A.page_size A.len = some 0) :
    ∃ e, parallel_load_collection A method order = .error e ∧
      e.isValueError = true ∧
      call_trace A method order = [none] := by
  have hval : ∃ e, validate_seed A firstOpt = .error e ∧ e.isValueError = true := by
    rcases h with h | h | h
    · exact ⟨.valueErrorTotal, by unfold validate_seed; rw [h], rfl⟩
    · cases htot : firstOpt.bind A.total with
      | none => exact ⟨.valueErrorTotal, by unfold validate_seed; rw [htot], rfl⟩
      | some t =>
        exact ⟨.valueErrorPageSize, by unfold validate_seed; rw [htot, h], rfl⟩
    · cases htot : firstOpt.bind A.total with
      | none => exact ⟨.valueErrorTotal, by unfold validate_seed; rw [htot], rfl⟩
      | some t =>
        exact ⟨.valueErrorPageSize, by unfold validate_seed; rw [htot, h]; simp, rfl⟩
  rcases hval with ⟨e, he, hve⟩
  exact ⟨e, by simp [parallel_load_collection, hseed, he], hve,
    by simp [call_trace, hseed, he]⟩

/-- C6 witness: a seed whose `total` attribute is `None`. -/
theorem c6_config_value_error_witness :
    ∃ e, parallel_load_collection testAttrs badTotalMethod [] = .error e ∧
      e.isValueError = true ∧
      call_trace testAttrs badTotalMethod [] = [none] :=
  c6_config_value_error testAttrs badTotalMethod [] (some badResp) rfl (Or.inl rfl)

/-- C1: for every collection with `num_pages ≥ 1`, every pure fetch
callable and every completion order of the concurrent fetches, the loader
returns the `num_pages` responses with the element at index `i` being the
callable's response for page `i + 1` — equal to the list obtained by
fetching pages `1 .. num_pages` strictly serially. -/
theorem c1_order_invariance (g : Nat → α) (A : Attrs α) (order : List Nat)
    (total ps : Nat)
    (hval : validate_seed A (some (g 1)) = .ok (total, ps))
    (hN : 1 ≤ num_pages_of total ps)
    (hperm : order.Perm (List.range' 1 (num_pages_of total ps - 1))) :
    parallel_load_collection A (mkMethod (fun k => some (g k))) order =
      .ok ((List.range' 1 (num_pages_of total ps)).map g) ∧
    serial_load_pages (mkMethod (fun k => some (g k))) (num_pages_of total ps) =
      .ok ((List.range' 1 (num_pages_of total ps)).map (fun k => some (g k))) ∧
    ((List.range' 1 (num_pages_of total ps)).map (fun k => some (g k))).filterMap id =
      (List.range' 1 (num_pages_of total ps)).map g ∧
    ((List.range' 1 (num_pages_of total ps)).map g).length = num_pages_of total ps ∧
    (∀ i, i < num_pages_of total ps →
      ((List.range' 1 (num_pages_of total ps)).map g)[i]? = some (g (i + 1))) := by
  have h1 := parallel_load_collection_mkMethod (fun k => some (g k)) A order total ps
    hval hN hperm
  have h2 := filterMap_id_map_some g (List.range' 1 (num_pages_of total ps))
  refine ⟨?_, serial_load_pages_mkMethod _ _, h2, by simp, ?_⟩
  · rw [h1, h2]
  · intro i hi
    rw [getElem?_map_range' g 1 _ i]
    simp [hi, Nat.add_comm]

/-- C1 witness: three pages completing out of order assemble in page
order. -/
theorem c1_order_invariance_witness :
    parallel_load_collection testAttrs (mkMethod (fun k => some (wResp k))) [2, 1] =
      .ok [wResp 1, wResp 2, wResp 3] := by
  have h := (c1_order_invariance wResp testAttrs [2, 1] 25 10 rfl (by decide)
    (by decide)).1
  rw [h]
  rfl

/-- C2: if the fetch callable raises for the seed page or for any
concurrent page of the completion order, the whole call raises — it never
returns a (possibly partial) result list. -/
theorem c2_failure_propagation (A : Attrs α)
    (method : Option Nat → Except Unit (Option α)) (order : List Nat)
    (h : (∃ e, method none = .error e) ∨
         (∃ i ∈ order, ∃ e, method (some (i + 1)) = .error e)) :
    ∃ err, parallel_load_collection A method order = .error err := by
  rcases h with ⟨e, he⟩ | hconc
  · exact ⟨.fetchRaised, by simp [parallel_load_collection, he]⟩
  · cases hm : method none with
    | error e => exact ⟨.fetchRaised, by simp [parallel_load_collection, hm]⟩
    | ok firstOpt =>
      cases hv : validate_seed A firstOpt with
      | error e => exact ⟨e, by simp [parallel_load_collection, hm, hv]⟩
      | ok tp =>
        obtain ⟨total, ps⟩ := tp
        by_cases hN : num_pages_of total ps = 0
        · exact ⟨.indexError, by simp [parallel_load_collection, hm, hv, hN]⟩
        · have hl := loadLoop_err method order
            ((List.replicate (num_pages_of total ps) (none : Option α)).set 0 firstOpt)
            hconc
          exact ⟨.fetchRaised, by simp [parallel_load_collection, hm, hv, hN, hl]⟩

/-- C2 witness: the callable raising for page 3. -/
theorem c2_failure_propagation_witness :
    ∃ err, parallel_load_collection testAttrs wMethodFail [1, 2] = .error err :=
  c2_failure_propagation testAttrs wMethodFail [1, 2]
    (Or.inr ⟨2, by decide, (), rfl⟩)

/-- C4: when the load reaches dispatch with `num_pages ≥ 2`, the callable
is invoked exactly `num_pages` times — the seed call first (no page
argument), then exactly once per page `2 .. num_pages` — and the writes
(seed slot `0` plus one slot per completion) target pairwise distinct
slots. -/
theorem c4_exactly_once_dispatch (A : Attrs α)
    (method : Option Nat → Except Unit (Option α)) (order : List Nat)
    (firstOpt : Option α) (total ps : Nat)
    (hseed : method none = .ok firstOpt)
    (hval : validate_seed A firstOpt = .ok (total, ps))
    (hN : 2 ≤ num_pages_of total ps)
    (hperm : order.Perm (List.range' 1 (num_pages_of total ps - 1))) :
    call_trace A method order = none :: order.map (fun i => some (i + 1)) ∧
    (call_trace A method order).length = num_pages_of total ps ∧
    (call_trace A method order).count none = 1 ∧
    (∀ k, 2 ≤ k → k ≤ num_pages_of total ps →
      (call_trace A method order).count (some k) = 1) ∧
    (0 :: order).Nodup := by
  have hN0 : ¬num_pages_of total ps = 0 := by omega
  have htr : call_trace A method order = none :: order.map (fun i => some (i + 1)) := by
    simp [call_trace, hseed, hval, hN0]
  have hlen : order.length = num_pages_of total ps - 1 := by
    simpa using hperm.length_eq
  have hnodup : order.Nodup := hperm.nodup_iff.mpr (List.nodup_range' 1 _)
  have hmap : List.Perm (order.map (fun i => some (i + 1)))
      ((List.range' 1 (num_pages_of total ps - 1)).map (fun i => some (i + 1))) :=
    hperm.map _
  have hinj : Function.Injective (fun i : Nat => some (i + 1)) := by
    intro a b hab
    simpa using hab
  refine ⟨htr, ?_, ?_, ?_, ?_⟩
  · rw [htr]
    simp [hlen]
    omega
  · rw [htr, List.count_cons]
    have : (order.map (fun i => some (i + 1))).count (none : Option Nat) = 0 := by
      rw [List.count_eq_zero]
      simp
    simp [this]
  · intro k hk2 hkN
    rw [htr, List.count_cons]
    have hkmem : (some k : Option Nat) ∈
        (List.range' 1 (num_pages_of total ps - 1)).map (fun i => some (i + 1)) := by
      rw [List.mem_map]
      refine ⟨k - 1, ?_, by simp; omega⟩
      rw [List.mem_range']
      exact ⟨k - 2, by omega, by omega⟩
    have hnd : ((List.range' 1 (num_pages_of total ps - 1)).map
        (fun i => some (i + 1))).Nodup :=
      (List.nodup_range' 1 _).map hinj
    have hcnt : List.count (some k) (order.map (fun i => some (i + 1))) = 1 :=
      (hmap.countP_eq _).trans (count_eq_one_of_nodup_mem hnd hkmem)
    simp [hcnt]
  · rw [List.nodup_cons]
    refine ⟨?_, hnodup⟩
    intro h0
    have := (mem_order_iff hperm (by omega) 0).mp h0
    omega

/-- C4 witness: `total = 25, page_size = 10` gives three calls — one seed
plus pages 2 and 3 — and page 3 is requested exactly once. -/
theorem c4_exactly_once_dispatch_witness :
    (call_trace testAttrs wMethod [2, 1]).length = num_pages_of 25 10 ∧
    (call_trace testAttrs wMethod [2, 1]).count (some 3) = 1 :=
  ⟨(c4_exactly_once_dispatch testAttrs wMethod [2, 1] (some (wResp 1)) 25 10
      rfl rfl (by decide) (by decide)).2.1,
   (c4_exactly_once_dispatch testAttrs wMethod [2, 1] (some (wResp 1)) 25 10
      rfl rfl (by decide) (by decide)).2.2.2.1 3 (by decide) (by decide)⟩

/-- C5 (amended): when the derived page count is exactly 1 (equivalently
`1 ≤ total ≤ page_size`), the loader returns the single-element list
holding only the seed response, the callable is invoked exactly once (the
seed call) and no concurrent work is dispatched (the completion order is
forced empty).  The claim's original premise `num_pages ≤ 1` also admits
`total = 0`, where the code instead raises `IndexError` — see the
counterexample. -/
theorem c5_single_page_short_circuit (A : Attrs α)
    (method : Option Nat → Except Unit (Option α)) (order : List Nat)
    (firstOpt : Option α) (total ps : Nat)
    (hseed : method none = .ok firstOpt)
    (hval : validate_seed A firstOpt = .ok (total, ps))
    (h1 : num_pages_of total ps = 1)
    (hperm : order.Perm (List.range' 1 (num_pages_of total ps - 1))) :
    parallel_load_collection A method order = .ok firstOpt.toList ∧
    firstOpt.toList.length = 1 ∧
    call_trace A method order = [none] ∧
    order = [] := by
  have horder : order = [] := by
    rw [h1] at hperm
    simpa using (List.perm_nil.mp (by simpa using hperm))
  subst horder
  have hfirst : ∃ r, firstOpt = some r := by
    cases hf : firstOpt with
    | none =>
      rw [hf] at hval
      simp [validate_seed, Option.bind] at hval
    | some r => exact ⟨r, rfl⟩
  rcases hfirst with ⟨r, rfl⟩
  refine ⟨?_, rfl, ?_, rfl⟩
  · simp [parallel_load_collection, hseed, hval, h1, loadLoop]
  · simp [call_trace, hseed, hval, h1]

/-- C5 witness: `total = 5 ≤ page_size = 10` yields the seed page alone,
one call, no dispatch. -/
theorem c5_single_page_short_circuit_witness :
    parallel_load_collection testAttrs sMethod [] = .ok (some sResp).toList ∧
    (some sResp).toList.length = 1 ∧
    call_trace testAttrs sMethod [] = [none] ∧
    ([] : List Nat) = [] :=
  c5_single_page_short_circuit testAttrs sMethod [] (some sResp) 5 10 rfl rfl
    (by decide) (by decide)

/-- C5 counterexample: a seed with `total = 0` derives `num_pages = 0 ≤ 1`,
yet the loader raises `IndexError` instead of returning the single-element
seed list. -/
theorem c5_single_page_counterexample :
    computed_num_pages testAttrs zMethod = some 0 ∧
    parallel_load_collection testAttrs zMethod [] = .error .indexError ∧
    parallel_load_collection testAttrs zMethod [] ≠ .ok [zResp] := by
  refine ⟨rfl, rfl, ?_⟩
  intro h
  have h2 : parallel_load_collection testAttrs zMethod [] = .error .indexError := rfl
  exact Except.noConfusion (h2.symm.trans h)

/-- C10: when the (pure) fetch callable returns `None` for some page in
`2 .. num_pages`, the load still succeeds but silently omits that page:
the result is the serial page list with the `None` entries dropped,
strictly shorter than `num_pages`, and no error is raised. -/
theorem c10_none_page_omitted (f : Nat → Option α) (A : Attrs α) (order : List Nat)
    (total ps k : Nat)
    (hval : validate_seed A (f 1) = .ok (total, ps))
    (hperm : order.Perm (List.range' 1 (num_pages_of total ps - 1)))
    (hN : 2 ≤ num_pages_of total ps)
    (hk2 : 2 ≤ k) (hkN : k ≤ num_pages_of total ps) (hnone : f k = none) :
    parallel_load_collection A (mkMethod f) order =
      .ok (((List.range' 1 (num_pages_of total ps)).map f).filterMap id) ∧
    (((List.range' 1 (num_pages_of total ps)).map f).filterMap id).length <
      num_pages_of total ps := by
  refine ⟨parallel_load_collection_mkMethod f A order total ps hval (by omega) hperm, ?_⟩
  have hmem : (none : Option α) ∈ (List.range' 1 (num_pages_of total ps)).map f := by
    rw [List.mem_map]
    refine ⟨k, ?_, hnone⟩
    rw [List.mem_range']
    exact ⟨k - 1, by omega, by omega⟩
  have hlt := length_filterMap_id_lt hmem
  simpa using hlt

/-- C10 witness: a `25`-record, `10`-per-page collection whose page 2
comes back as `None` loads "successfully" with only pages 1 and 3. -/
theorem c10_none_page_omitted_witness :
    parallel_load_collection testAttrs
        (mkMethod (fun k => if k = 2 then none else some (wResp k))) [2, 1] =
      .ok (((List.range' 1 (num_pages_of 25 10)).map
        (fun k => if k = 2 then none else some (wResp k))).filterMap id) ∧
    ((((List.range' 1 (num_pages_of 25 10)).map
        (fun k => if k = 2 then none else some (wResp k))).filterMap id)).length <
      num_pages_of 25 10 :=
  c10_none_page_omitted (fun k => if k = 2 then none else some (wResp k))
    testAttrs [2, 1] 25 10 2 rfl (by decide) (by decide) (by decide) (by decide) rfl

/-- C8 (amended): the thread-pool loader of the source and the
spec-modelled cooperative loader agree on every input whose page-fetch
callable defaults to page 1 — identical assembled order and identical
failure propagation, covering seed-fetch failures, seed-validation
failures, and every run with derived `num_pages ≥ 1` (any completion
order, any batch size, any concurrent-page failures or `None` results).
The two variants differ when the seed reports `total = 0`: the source
raises `IndexError` while the cooperative variant per the spec returns
the single-element seed list — see the counterexample. -/
theorem c8_variant_equivalence (A : Attrs α)
    (method : Option Nat → Except Unit (Option α)) (order : List Nat)
    (batch_size : Option Nat)
    (hdefault : method none = method (some 1))
    (h : (∃ e, method (some 1) = .error e) ∨
         (∃ firstOpt e, method (some 1) = .ok firstOpt ∧
            validate_seed A firstOpt = .error e) ∨
         (∃ firstOpt total ps, method (some 1) = .ok firstOpt ∧
            validate_seed A firstOpt = .ok (total, ps) ∧
            1 ≤ num_pages_of total ps ∧
            order.Perm (List.range' 1 (num_pages_of total ps - 1)))) :
    parallel_load_collection A method order =
      parallel_load_paginated_async A method batch_size := by
  rcases h with ⟨e, he⟩ | ⟨firstOpt, e, hseed, hv⟩ |
    ⟨firstOpt, total, ps, hseed, hval, hN, hperm⟩
  · have hn : method none = .error e := hdefault.trans he
    simp [parallel_load_collection, parallel_load_paginated_async, hn, he]
  · have hn : method none = .ok firstOpt := hdefault.trans hseed
    simp [parallel_load_collection, parallel_load_paginated_async, hn, hseed, hv]
  · have hn : method none = .ok firstOpt := hdefault.trans hseed
    by_cases h1 : num_pages_of total ps = 1
    · have horder : order = [] := by
        rw [h1] at hperm
        simpa using (List.perm_nil.mp (by simpa using hperm))
      subst horder
      simp [parallel_load_collection, parallel_load_paginated_async, hn, hseed,
        hval, h1, loadLoop, filterMap_id_singleton]
    · have hNne0 : ¬num_pages_of total ps = 0 := by omega
      have hNle1 : ¬num_pages_of total ps ≤ 1 := by omega
      have hbounds : ∀ i ∈ List.range' 1 (num_pages_of total ps - 1),
          i < ((List.replicate (num_pages_of total ps) (none : Option α)).set
            0 firstOpt).length := by
        intro i hi
        simp only [List.length_set, List.length_replicate]
        rw [List.mem_range'] at hi
        omega
      have hloop : loadLoop method order
            ((List.replicate (num_pages_of total ps) (none : Option α)).set
              0 firstOpt) =
          loadLoop method (List.range' 1 (num_pages_of total ps - 1))
            ((List.replicate (num_pages_of total ps) (none : Option α)).set
              0 firstOpt) :=
        loadLoop_perm method _ hperm hbounds
      cases batch_size with
      | none =>
        have hbatch : batchLoop method
              [List.range' 1 (num_pages_of total ps - 1)]
              ((List.replicate (num_pages_of total ps) (none : Option α)).set
                0 firstOpt) =
            loadLoop method (List.range' 1 (num_pages_of total ps - 1))
              ((List.replicate (num_pages_of total ps) (none : Option α)).set
                0 firstOpt) := by
          rw [batchLoop_eq_loadLoop]
          simp
        simp only [parallel_load_collection, parallel_load_paginated_async, hn, hseed,
          hval, hNne0, if_false, hNle1, hloop, hbatch]
      | some b =>
        have hbatch : batchLoop method
              (toBatches b (List.range' 1 (num_pages_of total ps - 1)))
              ((List.replicate (num_pages_of total ps) (none : Option α)).set
                0 firstOpt) =
            loadLoop method (List.range' 1 (num_pages_of total ps - 1))
              ((List.replicate (num_pages_of total ps) (none : Option α)).set
                0 firstOpt) := by
          rw [batchLoop_eq_loadLoop, toBatches_flatten]
        simp only [parallel_load_collection, parallel_load_paginated_async, hn, hseed,
          hval, hNne0, if_false, hNle1, hloop, hbatch]

/-- C8 witness: a 3-page collection, shuffled completion order, batch size
2 — both variants produce the same value. -/
theorem c8_variant_equivalence_witness :
    parallel_load_collection testAttrs wMethod [2, 1] =
      parallel_load_paginated_async testAttrs wMethod (some 2) :=
  c8_variant_equivalence testAttrs wMethod [2, 1] (some 2) rfl
    (Or.inr (Or.inr ⟨some (wResp 1), 25, 10, rfl, rfl, by decide, by decide⟩))

/-- C8 counterexample: on the `total = 0` seed the two variants disagree —
the source's thread variant raises `IndexError`, the spec's cooperative
variant returns the single-element seed list. -/
theorem c8_variant_counterexample :
    parallel_load_collection testAttrs zMethod [] = .error .indexError ∧
    parallel_load_paginated_async testAttrs zMethod none = .ok [zResp] ∧
    parallel_load_collection testAttrs zMethod [] ≠
      parallel_load_paginated_async testAttrs zMethod none := by
  refine ⟨rfl, rfl, ?_⟩
  intro h
  have h1 : parallel_load_collection testAttrs zMethod [] = .error .indexError := rfl
  have h2 : parallel_load_paginated_async testAttrs zMethod none = .ok [zResp] := rfl
  exact Except.noConfusion ((h1.symm.trans h).trans h2)
